import Mathlib

/-!
Formal model of the MandelSound fractal renderer and sonifier.

The two C++ translation units (`man.cpp`, the naive version, and `2man.cpp`,
the adaptive multithreaded version) are embedded as Lean functions over exact
real arithmetic.  Machine doubles are modelled by `ℝ`; the C++
`static_cast<int>` truncation toward zero is modelled by `truncInt`; the
per-pass pixel raster is modelled as a total function from flat indices to
packed RGBA words; the spawn/join row-strip parallelism of the orchestrator is
modelled by sequentially composing the strip renders (each strip writes a
disjoint row range, so any linearisation computes the same raster).
-/

/-- C++ `static_cast<int>` applied to a double: truncation toward zero. -/
noncomputable def truncInt (x : ℝ) : ℤ :=
  if 0 ≤ x then ⌊x⌋ else ⌈x⌉

/-- `mapValue` from both files: linear interpolation between two ranges. -/
noncomputable def mapValue (value inMin inMax outMin outMax : ℝ) : ℝ :=
  outMin + (outMax - outMin) * ((value - inMin) / (inMax - inMin))

/-- The while-loop of `calculateMandelbrot` in `2man.cpp`, with the remaining
iteration budget (`maxIter - iteration`) as the recursion fuel.  The loop
guard `x2 + y2 < 4.0 && iteration < maxIter` is tested before each body; the
body updates `y`, then `x` (from the saved squares), then the squares, and
counts the iteration.  The returned value is the number of executed
iterations. -/
noncomputable def mandelbrotLoop (real imag : ℝ) (x y x2 y2 : ℝ) : ℕ → ℕ
  | 0 => 0
  | n + 1 =>
    if x2 + y2 < 4 then
      let y' := 2 * x * y + imag
      let x' := x2 - y2 + real
      1 + mandelbrotLoop real imag x' y' (x' * x') (y' * y') n
    else 0

/-- `calculateMandelbrot` from `2man.cpp`: iterate from `x = y = x2 = y2 = 0`
with budget `maxIter`. -/
noncomputable def calculateMandelbrot (real imag : ℝ) (maxIter : ℕ) : ℕ :=
  mandelbrotLoop real imag 0 0 0 0 maxIter

namespace Man

/-- `MAX_ITERATIONS` from `man.cpp`. -/
def MAX_ITERATIONS : ℕ := 1000

/-- The while-loop of `calculateMandelbrot` in `man.cpp`: iterate
`z = z * z + c` over `std::complex<double>` while `std::abs(z) < 2.0`,
with the remaining budget as fuel. -/
noncomputable def mandelbrotLoop (c z : ℂ) : ℕ → ℕ
  | 0 => 0
  | n + 1 =>
    if Complex.abs z < 2 then 1 + mandelbrotLoop c (z * z + c) n
    else 0

/-- `calculateMandelbrot` from `man.cpp`: start from `z = 0`, fixed budget
`MAX_ITERATIONS = 1000`. -/
noncomputable def calculateMandelbrot (real imag : ℝ) : ℕ :=
  mandelbrotLoop ⟨real, imag⟩ ⟨0, 0⟩ MAX_ITERATIONS

end Man

/-- `SAMPLE_RATE` from `2man.cpp`. -/
def SAMPLE_RATE : ℕ := 44100

/-- The primary-frequency selection at the top of `createMandelbrotSound`:
110 Hz when the count reaches the budget, otherwise the linear map of the
count from `[0, MAX_ITERATIONS]` to `[220, 880]`. -/
noncomputable def primaryFreq (iterations maxIterations : ℕ) : ℝ :=
  if maxIterations ≤ iterations then 110
  else mapValue (iterations : ℝ) 0 (maxIterations : ℝ) 220 880

/-- The four-segment ADSR amplitude envelope computed per sample in
`createMandelbrotSound` (attack 0.05 s, decay 0.1 s, sustain 0.7,
release 0.3 s before `duration`). -/
noncomputable def adsrEnvelope (duration time : ℝ) : ℝ :=
  let attackTime : ℝ := 0.05
  let decayTime : ℝ := 0.1
  let sustainLevel : ℝ := 0.7
  let releaseTime : ℝ := 0.3
  if time < attackTime then time / attackTime
  else if time < attackTime + decayTime then
    1 - (1 - sustainLevel) * ((time - attackTime) / decayTime)
  else if time < duration - releaseTime then sustainLevel
  else sustainLevel * (1 - (time - (duration - releaseTime)) / releaseTime)

/-- One sample of the loop body of `createMandelbrotSound`: the weighted sum
of four sine partials, shaped by the envelope, scaled to 16-bit range and
truncated to an integer. -/
noncomputable def soundSample
    (primaryF secondaryFreq1 secondaryFreq2 harmonicFreq duration : ℝ)
    (i : ℕ) : ℤ :=
  let time : ℝ := (i : ℝ) / (SAMPLE_RATE : ℝ)
  let envelope := adsrEnvelope duration time
  let sample := 0.5 * Real.sin (2 * Real.pi * primaryF * time)
    + 0.25 * Real.sin (2 * Real.pi * secondaryFreq1 * time)
    + 0.15 * Real.sin (2 * Real.pi * secondaryFreq2 * time)
    + 0.1 * Real.sin (2 * Real.pi * harmonicFreq * time)
  truncInt (sample * envelope * 32767)

/-- `createMandelbrotSound` from `2man.cpp`: duration 1 s, four partials
derived from the primary frequency and the clicked coordinate. -/
noncomputable def createMandelbrotSound (iterations maxIterations : ℕ)
    (real imag : ℝ) : List ℤ :=
  let duration : ℝ := 1
  let pFreq := primaryFreq iterations maxIterations
  let secondaryFreq1 := pFreq * (1 + real * 0.1)
  let secondaryFreq2 := pFreq * (1 + imag * 0.1)
  let harmonicFreq := pFreq * 1.5
  let sampleCount : ℕ := (truncInt ((SAMPLE_RATE : ℝ) * duration)).toNat
  (List.range sampleCount).map
    (soundSample pFreq secondaryFreq1 secondaryFreq2 harmonicFreq duration)

/-- C++ `Uint8` conversion of a double (truncation; the values produced by
the HSV conversion lie in `[0, 255]`). -/
noncomputable def toUint8 (x : ℝ) : ℕ := (truncInt x).toNat % 256

/-- The per-pixel coloring of `renderMandelbrotSection`: black inside the
set, otherwise HSV→RGB via the 6-sector piecewise formula with hue
`(iterations mod 64) / 64`, saturation 0.8 and full value.  The final arm is
unreachable (`i % 6` is always one of 0..5 since `i ≥ 0`). -/
noncomputable def pixelRGB (iterations maxIterations : ℕ) : ℕ × ℕ × ℕ :=
  if iterations = maxIterations then (0, 0, 0)
  else
    let hue : ℝ := mapValue ((iterations % 64 : ℕ) : ℝ) 0 64 0 1
    let saturation : ℝ := 0.8
    let value : ℝ := if iterations < maxIterations then 1 else 0
    let h := hue * 6
    let i : ℤ := truncInt h
    let f := h - (i : ℝ)
    let p := value * (1 - saturation)
    let q := value * (1 - saturation * f)
    let t := value * (1 - saturation * (1 - f))
    if i % 6 = 0 then (toUint8 (value * 255), toUint8 (t * 255), toUint8 (p * 255))
    else if i % 6 = 1 then (toUint8 (q * 255), toUint8 (value * 255), toUint8 (p * 255))
    else if i % 6 = 2 then (toUint8 (p * 255), toUint8 (value * 255), toUint8 (t * 255))
    else if i % 6 = 3 then (toUint8 (p * 255), toUint8 (q * 255), toUint8 (value * 255))
    else if i % 6 = 4 then (toUint8 (t * 255), toUint8 (p * 255), toUint8 (value * 255))
    else if i % 6 = 5 then (toUint8 (value * 255), toUint8 (p * 255), toUint8 (q * 255))
    else (0, 0, 0)

/-- The packed RGBA word written for pixel `(x, y)`: map the pixel to a plane
coordinate, evaluate the escape time, color, and pack `R | G<<8 | B<<16 |
255<<24`. -/
noncomputable def pixelValue (width height : ℕ) (xMin xMax yMin yMax : ℝ)
    (maxIterations : ℕ) (x y : ℕ) : ℕ :=
  let real := mapValue (x : ℝ) 0 (width : ℝ) xMin xMax
  let imag := mapValue (y : ℝ) 0 (height : ℝ) yMin yMax
  let iterations := calculateMandelbrot real imag maxIterations
  let rgb := pixelRGB iterations maxIterations
  rgb.1 ||| (rgb.2.1 <<< 8) ||| (rgb.2.2 <<< 16) ||| (255 <<< 24)

/-- `renderMandelbrotSection` from `2man.cpp`: fill every pixel of the rows
`[startY, endY)` of the raster (modelled as a total function from flat index
`y * width + x` to packed RGBA). -/
noncomputable def renderMandelbrotSection (pixels : ℕ → ℕ)
    (startY endY width height : ℕ) (xMin xMax yMin yMax : ℝ)
    (maxIterations : ℕ) : ℕ → ℕ :=
  (List.range' startY (endY - startY)).foldl
    (fun buf y =>
      (List.range width).foldl
        (fun buf2 x =>
          Function.update buf2 (y * width + x)
            (pixelValue width height xMin xMax yMin yMax maxIterations x y))
        buf)
    pixels

/-- The strip partition of `renderMandelbrot` in `2man.cpp`: `numThreads`
row strips of height `height / numThreads`, the final strip absorbing the
remainder rows.  The per-strip workers write disjoint row ranges, so the
joined parallel execution computes the same raster as this left-to-right
sequential composition. -/
noncomputable def renderStrips (numThreads : ℕ) (pixels : ℕ → ℕ)
    (width height : ℕ) (xMin xMax yMin yMax : ℝ) (maxIterations : ℕ) :
    ℕ → ℕ :=
  let sectionHeight := height / numThreads
  (List.range numThreads).foldl
    (fun buf i =>
      renderMandelbrotSection buf (i * sectionHeight)
        (if i = numThreads - 1 then height else i * sectionHeight + sectionHeight)
        width height xMin xMax yMin yMax maxIterations)
    pixels

/-- `updateIterations` from `2man.cpp` as a function of the current viewport
width `xMax - xMin`: cast `100 * sqrt(3.5 / width)` to int, then clamp below
at 100 and above at 2000. -/
noncomputable def updateIterations (currentRange : ℝ) : ℤ :=
  let initialRange : ℝ := 3.5
  let zoomLevel := initialRange / currentRange
  let it := truncInt (100 * Real.sqrt zoomLevel)
  let it1 := if it < 100 then 100 else it
  if 2000 < it1 then 2000 else it1

/-- The global state read and written by `renderMandelbrot`: the viewport
bounds, the last-rendered bounds, the three quality flags, the adaptive
iteration budget and the raster handed to the presentation layer. -/
structure RenderState where
  xMin : ℝ
  xMax : ℝ
  yMin : ℝ
  yMax : ℝ
  prev_xMin : ℝ
  prev_xMax : ℝ
  prev_yMin : ℝ
  prev_yMax : ℝ
  needsUpdate : Bool
  isHighQuality : Bool
  isRenderingHighQuality : Bool
  maxIterations : ℕ
  pixels : ℕ → ℕ

open Classical in
/-- `renderMandelbrot` from `2man.cpp` as a state transformer: skip when a
precise raster for the current bounds is already displayed and no redraw is
pending; otherwise record the bounds, render all strips (at a quarter budget
for the fast preview), and on a precise pass reset the quality flags. -/
noncomputable def renderMandelbrot (numThreads : ℕ) (highQuality : Bool)
    (s : RenderState) : RenderState :=
  if highQuality = true ∧ s.needsUpdate = false ∧
      s.prev_xMin = s.xMin ∧ s.prev_xMax = s.xMax ∧
      s.prev_yMin = s.yMin ∧ s.prev_yMax = s.yMax then
    s
  else
    let localMaxIterations :=
      if highQuality then s.maxIterations else s.maxIterations / 4
    { s with
      prev_xMin := s.xMin
      prev_xMax := s.xMax
      prev_yMin := s.yMin
      prev_yMax := s.yMax
      pixels := renderStrips numThreads s.pixels 800 600
        s.xMin s.xMax s.yMin s.yMax localMaxIterations
      needsUpdate := if highQuality then false else s.needsUpdate
      isHighQuality := if highQuality then true else s.isHighQuality
      isRenderingHighQuality :=
        if highQuality then false else s.isRenderingHighQuality }

/-- The viewport bounds mutated by the wheel handler. -/
structure Viewport where
  xMin : ℝ
  xMax : ℝ
  yMin : ℝ
  yMax : ℝ

/-- The mouse-wheel zoom of `main` in `2man.cpp`: map the cursor pixel to a
plane coordinate, scale the width and height by 0.8 (wheel up) or 1.25
(wheel down), and recenter the viewport on the cursor coordinate. -/
noncomputable def applyZoom (mouseX mouseY : ℝ) (wheelY : ℤ) (v : Viewport) :
    Viewport :=
  let centerReal := mapValue mouseX 0 800 v.xMin v.xMax
  let centerImag := mapValue mouseY 0 600 v.yMin v.yMax
  let zoomFactor : ℝ := if 0 < wheelY then 0.8 else 1.25
  let newWidth := (v.xMax - v.xMin) * zoomFactor
  let newHeight := (v.yMax - v.yMin) * zoomFactor
  ⟨centerReal - newWidth / 2, centerReal + newWidth / 2,
    centerImag - newHeight / 2, centerImag + newHeight / 2⟩

/-- If the squares already witness escape, the loop performs no iteration. -/
theorem mandelbrotLoop_escaped {real imag x y x2 y2 : ℝ} (h : 4 ≤ x2 + y2) :
    ∀ n, mandelbrotLoop real imag x y x2 y2 n = 0 := by
  intro n
  cases n with
  | zero => rfl
  | succ n => simp [mandelbrotLoop, not_lt.mpr h]

/-- The loop with positive fuel always executes at least one iteration when
started from the origin state (the guard sees `x2 + y2 = 0 < 4`). -/
theorem mandelbrotLoop_pos (real imag : ℝ) (n : ℕ) :
    1 ≤ mandelbrotLoop real imag 0 0 0 0 (n + 1) := by
  simp only [mandelbrotLoop]
  rw [if_pos (by norm_num)]
  exact Nat.le_add_right 1 _

/-- The orbit of `c = 0` stays at the origin, so the loop runs its full
fuel. -/
theorem mandelbrotLoop_zero_orbit (n : ℕ) :
    mandelbrotLoop 0 0 0 0 0 0 n = n := by
  induction n with
  | zero => rfl
  | succ n ih =>
    simp only [mandelbrotLoop]
    rw [if_pos (by norm_num)]
    norm_num [ih]
    omega

/-- The orbit of `c = -1` alternates between the two states `(0,0)` and
`(-1,0)` (squares `(0,0)` and `(1,0)`), so the loop runs its full fuel from
either state. -/
theorem mandelbrotLoop_neg_one_orbit (n : ℕ) :
    mandelbrotLoop (-1) 0 0 0 0 0 n = n ∧
      mandelbrotLoop (-1) 0 (-1) 0 1 0 n = n := by
  induction n with
  | zero => exact ⟨rfl, rfl⟩
  | succ n ih =>
    constructor
    · simp only [mandelbrotLoop]
      rw [if_pos (by norm_num)]
      norm_num [ih.2]
      omega
    · simp only [mandelbrotLoop]
      rw [if_pos (by norm_num)]
      norm_num [ih.1]
      omega

/-- A point with `real ^ 2 + imag ^ 2 ≥ 4` escapes right after the first
iteration: the first iterate is `(real, imag)` itself. -/
theorem mandelbrotLoop_first_iterate_escape {real imag : ℝ}
    (h : 4 ≤ real ^ 2 + imag ^ 2) (n : ℕ) :
    mandelbrotLoop real imag 0 0 0 0 (n + 1) = 1 := by
  simp only [mandelbrotLoop]
  rw [if_pos (by norm_num)]
  norm_num
  rw [mandelbrotLoop_escaped (by nlinarith)]

/-- The escape test of `man.cpp` (`std::abs(z) < 2`) agrees with the escape
test of `2man.cpp` (`x * x + y * y < 4`). -/
theorem complex_abs_lt_two_iff (z : ℂ) :
    Complex.abs z < 2 ↔ z.re * z.re + z.im * z.im < 4 := by
  have h0 : 0 ≤ Complex.abs z := Complex.abs.nonneg z
  have hsq : Complex.abs z ^ 2 = z.re * z.re + z.im * z.im := by
    rw [Complex.sq_abs, Complex.normSq_apply]
  constructor
  · intro h; nlinarith
  · intro h; nlinarith

/-- The optimized loop of `2man.cpp`, started with the squares of the current
iterate, simulates the complex-number loop of `man.cpp` step for step. -/
theorem mandelbrotLoop_eq_man (n : ℕ) : ∀ c z : ℂ,
    Man.mandelbrotLoop c z n =
      mandelbrotLoop c.re c.im z.re z.im (z.re * z.re) (z.im * z.im) n := by
  induction n with
  | zero => intro c z; rfl
  | succ n ih =>
    intro c z
    simp only [Man.mandelbrotLoop, mandelbrotLoop, complex_abs_lt_two_iff]
    split
    · rw [ih c (z * z + c)]
      have hre : (z * z + c).re = z.re * z.re - z.im * z.im + c.re := by
        simp [Complex.add_re, Complex.mul_re]
      have him : (z * z + c).im = 2 * z.re * z.im + c.im := by
        simp [Complex.add_im, Complex.mul_im]; ring
      rw [hre, him]
    · rfl

/-- `man.cpp`'s evaluator equals `2man.cpp`'s evaluator at budget 1000. -/
theorem man_eq_2man (real imag : ℝ) :
    Man.calculateMandelbrot real imag = calculateMandelbrot real imag 1000 := by
  unfold Man.calculateMandelbrot calculateMandelbrot Man.MAX_ITERATIONS
  rw [mandelbrotLoop_eq_man]
  norm_num

/-- C2: for every budget `maxIter ≥ 1`, the evaluator of `2man.cpp` applied
to the points `(0, 0)` and `(-1, 0)` returns exactly `maxIter` (the orbit is
bounded, so the iteration cap is reached). -/
theorem evaluator_inside_points_full_budget (maxIter : ℕ) (h : 1 ≤ maxIter) :
    calculateMandelbrot 0 0 maxIter = maxIter ∧
      calculateMandelbrot (-1) 0 maxIter = maxIter :=
  ⟨mandelbrotLoop_zero_orbit maxIter, (mandelbrotLoop_neg_one_orbit maxIter).1⟩

theorem evaluator_inside_points_full_budget_witness :
    1 ≤ 3 ∧ (calculateMandelbrot 0 0 3 = 3 ∧ calculateMandelbrot (-1) 0 3 = 3) :=
  ⟨by decide, evaluator_inside_points_full_budget 3 (by decide)⟩

/-- C3 counterexample: at the already-escaped point `(2, 0)` with budget 1
the evaluator returns 1, not 0 — the loop guard is tested before the first
update, when the squares are still `0`, so the body always runs once. -/
theorem evaluator_escape_returns_nonzero :
    (4 : ℝ) ≤ 2 ^ 2 + 0 ^ 2 ∧ calculateMandelbrot 2 0 1 ≠ 0 := by
  refine ⟨by norm_num, ?_⟩
  have h := @mandelbrotLoop_first_iterate_escape 2 0 (by norm_num) 0
  unfold calculateMandelbrot
  rw [h]
  decide

/-- C3 amended: for every `(real, imag)` with `real² + imag² ≥ 4` and every
budget `maxIter ≥ 1`, the evaluator returns exactly 1 (the loop body runs
once, lands on `(real, imag)`, and the guard then reports escape). -/
theorem evaluator_escape_returns_one (real imag : ℝ)
    (h : 4 ≤ real ^ 2 + imag ^ 2) (maxIter : ℕ) (hm : 1 ≤ maxIter) :
    calculateMandelbrot real imag maxIter = 1 := by
  obtain ⟨m, rfl⟩ : ∃ m, maxIter = m + 1 := ⟨maxIter - 1, by omega⟩
  exact mandelbrotLoop_first_iterate_escape h m

theorem evaluator_escape_returns_one_witness :
    (4 : ℝ) ≤ 2 ^ 2 + 0 ^ 2 ∧ 1 ≤ 1 ∧ calculateMandelbrot 2 0 1 = 1 :=
  ⟨by norm_num, by decide, evaluator_escape_returns_one 2 0 (by norm_num) 1 (by decide)⟩

/-- C9: for every `(real, imag)` and every budget `maxIter ≥ 1`, both
evaluators return at least 1: the escape test precedes the first update and
the initial state gives `x² + y² = 0 < 4`, so the body runs at least once. -/
theorem evaluator_returns_at_least_one (real imag : ℝ) (maxIter : ℕ)
    (h : 1 ≤ maxIter) :
    1 ≤ calculateMandelbrot real imag maxIter ∧
      1 ≤ Man.calculateMandelbrot real imag := by
  constructor
  · obtain ⟨m, rfl⟩ : ∃ m, maxIter = m + 1 := ⟨maxIter - 1, by omega⟩
    exact mandelbrotLoop_pos real imag m
  · rw [man_eq_2man]
    exact mandelbrotLoop_pos real imag 999

theorem evaluator_returns_at_least_one_witness :
    1 ≤ 1 ∧ (1 ≤ calculateMandelbrot 0 0 1 ∧ 1 ≤ Man.calculateMandelbrot 0 0) :=
  ⟨by decide, evaluator_returns_at_least_one 0 0 1 (by decide)⟩

/-- C10: under exact real arithmetic the naive evaluator of `man.cpp`
(complex iteration `z = z*z + c`, escape test `|z| < 2`, fixed cap 1000) and
the optimized evaluator of `2man.cpp` (tracking `x, y, x², y²`, escape test
`x² + y² < 4`) called with `maxIter = 1000` agree at every point. -/
theorem naive_evaluator_eq_optimized_evaluator (real imag : ℝ) :
    Man.calculateMandelbrot real imag = calculateMandelbrot real imag 1000 :=
  man_eq_2man real imag

/-- The sample count `static_cast<int>(SAMPLE_RATE * duration)` is exactly
44100. -/
theorem sampleCount_eq : (truncInt ((SAMPLE_RATE : ℝ) * 1)).toNat = 44100 := by
  have h : ((SAMPLE_RATE : ℝ) * 1) = ((44100 : ℤ) : ℝ) := by
    norm_num [SAMPLE_RATE]
  rw [truncInt, if_pos (by rw [h]; norm_num), h, Int.floor_intCast]
  rfl

/-- The envelope stays within `[0, 1]` throughout the 1-second buffer. -/
theorem adsrEnvelope_mem {t : ℝ} (h0 : 0 ≤ t) (h1 : t < 1) :
    0 ≤ adsrEnvelope 1 t ∧ adsrEnvelope 1 t ≤ 1 := by
  simp only [adsrEnvelope]
  split_ifs with ha hb hc
  · constructor
    · positivity
    · rw [div_le_one (by norm_num)]; linarith
  · have hq0 : 0 ≤ (t - 0.05) / 0.1 := by
      apply div_nonneg _ (by norm_num); linarith
    have hq1 : (t - 0.05) / 0.1 ≤ 1 := by
      rw [div_le_one (by norm_num)]; linarith
    constructor <;> nlinarith
  · norm_num
  · have hq0 : 0 ≤ (t - (1 - 0.3)) / 0.3 := by
      apply div_nonneg _ (by norm_num); linarith
    have hq1 : (t - (1 - 0.3)) / 0.3 ≤ 1 := by
      rw [div_le_one (by norm_num)]; linarith
    constructor <;> nlinarith

/-- The weighted four-partial mix is bounded by the sum of weights, 1. -/
theorem sin_mix_bound (a b c d : ℝ) :
    |0.5 * Real.sin a + 0.25 * Real.sin b + 0.15 * Real.sin c
      + 0.1 * Real.sin d| ≤ 1 := by
  rw [abs_le]
  constructor <;>
    nlinarith [Real.sin_le_one a, Real.neg_one_le_sin a, Real.sin_le_one b,
      Real.neg_one_le_sin b, Real.sin_le_one c, Real.neg_one_le_sin c,
      Real.sin_le_one d, Real.neg_one_le_sin d]

/-- Truncation toward zero maps `[-B, B]` into `[-B, B]`. -/
theorem truncInt_mem (B : ℤ) (x : ℝ) (hB : 0 ≤ B) (h1 : -(B : ℝ) ≤ x)
    (h2 : x ≤ (B : ℝ)) : -B ≤ truncInt x ∧ truncInt x ≤ B := by
  rw [truncInt]
  split_ifs with hx
  · refine ⟨le_trans (by omega) (Int.floor_nonneg.mpr hx), ?_⟩
    have := Int.floor_le x
    exact_mod_cast le_trans this h2
  · constructor
    · have := Int.le_ceil x
      exact_mod_cast le_trans h1 this
    · refine le_trans (Int.ceil_le.mpr ?_) hB
      push_cast
      linarith [lt_of_not_le hx]

/-- Every sample of the 1-second buffer lies in the signed 16-bit range. -/
theorem soundSample_mem (f1 f2 f3 f4 : ℝ) (i : ℕ) (hi : i < 44100) :
    -32768 ≤ soundSample f1 f2 f3 f4 1 i ∧ soundSample f1 f2 f3 f4 1 i ≤ 32767 := by
  have hsr : ((SAMPLE_RATE : ℕ) : ℝ) = 44100 := by norm_num [SAMPLE_RATE]
  have ht0 : 0 ≤ (i : ℝ) / (SAMPLE_RATE : ℝ) := by
    rw [hsr]; positivity
  have ht1 : (i : ℝ) / (SAMPLE_RATE : ℝ) < 1 := by
    rw [hsr, div_lt_one (by norm_num)]
    exact_mod_cast hi
  obtain ⟨he0, he1⟩ := adsrEnvelope_mem ht0 ht1
  simp only [soundSample]
  have hmix := sin_mix_bound
    (2 * Real.pi * f1 * ((i : ℝ) / (SAMPLE_RATE : ℝ)))
    (2 * Real.pi * f2 * ((i : ℝ) / (SAMPLE_RATE : ℝ)))
    (2 * Real.pi * f3 * ((i : ℝ) / (SAMPLE_RATE : ℝ)))
    (2 * Real.pi * f4 * ((i : ℝ) / (SAMPLE_RATE : ℝ)))
  rw [abs_le] at hmix
  have hprod : -(32767 : ℝ) ≤ (0.5 * Real.sin (2 * Real.pi * f1 * ((i : ℝ) / (SAMPLE_RATE : ℝ)))
      + 0.25 * Real.sin (2 * Real.pi * f2 * ((i : ℝ) / (SAMPLE_RATE : ℝ)))
      + 0.15 * Real.sin (2 * Real.pi * f3 * ((i : ℝ) / (SAMPLE_RATE : ℝ)))
      + 0.1 * Real.sin (2 * Real.pi * f4 * ((i : ℝ) / (SAMPLE_RATE : ℝ))))
      * adsrEnvelope 1 ((i : ℝ) / (SAMPLE_RATE : ℝ)) * 32767 ∧
      (0.5 * Real.sin (2 * Real.pi * f1 * ((i : ℝ) / (SAMPLE_RATE : ℝ)))
      + 0.25 * Real.sin (2 * Real.pi * f2 * ((i : ℝ) / (SAMPLE_RATE : ℝ)))
      + 0.15 * Real.sin (2 * Real.pi * f3 * ((i : ℝ) / (SAMPLE_RATE : ℝ)))
      + 0.1 * Real.sin (2 * Real.pi * f4 * ((i : ℝ) / (SAMPLE_RATE : ℝ))))
      * adsrEnvelope 1 ((i : ℝ) / (SAMPLE_RATE : ℝ)) * 32767 ≤ 32767 := by
    constructor <;> nlinarith [hmix.1, hmix.2, he0, he1]
  obtain ⟨hl, hr⟩ := truncInt_mem 32767 _ (by omega) (by exact_mod_cast hprod.1)
    (by exact_mod_cast hprod.2)
  omega

/-- C7: for every iteration count and coordinate, the synthesizer's output
buffer contains exactly `sampleRate * duration = 44100 * 1` samples, and
every sample (indexed with default 0) lies in the signed 16-bit range
`[-32768, 32767]`. -/
theorem sound_buffer_length_and_range (iterations maxIterations : ℕ)
    (real imag : ℝ) :
    (createMandelbrotSound iterations maxIterations real imag).length = 44100 ∧
    ∀ i : ℕ,
      -32768 ≤ (createMandelbrotSound iterations maxIterations real imag).getD i 0 ∧
        (createMandelbrotSound iterations maxIterations real imag).getD i 0 ≤ 32767 := by
  simp only [createMandelbrotSound, sampleCount_eq]
  constructor
  · rw [List.length_map, List.length_range]
  · intro i
    rw [List.getD_eq_getElem?_getD, List.getElem?_map]
    by_cases hi : i < 44100
    · rw [List.getElem?_range hi]
      exact soundSample_mem _ _ _ _ i hi
    · rw [List.getElem?_eq_none (by simpa using not_lt.mp hi)]
      constructor <;> simp

/-- C6: for any count at most the budget, the synthesizer's primary frequency
is 110 Hz exactly when the count equals the budget, and otherwise is the
linear map of the count from `[0, budget]` to `[220, 880]` Hz. -/
theorem primary_frequency_map (iterations maxIterations : ℕ)
    (h : iterations ≤ maxIterations) :
    (primaryFreq iterations maxIterations = 110 ↔ iterations = maxIterations) ∧
    (iterations < maxIterations →
      primaryFreq iterations maxIterations
        = 220 + (880 - 220) * ((iterations : ℝ) / (maxIterations : ℝ))) := by
  have hmap : iterations < maxIterations →
      primaryFreq iterations maxIterations
        = 220 + (880 - 220) * ((iterations : ℝ) / (maxIterations : ℝ)) := by
    intro hlt
    rw [primaryFreq, if_neg (not_le.mpr hlt), mapValue]
    norm_num
  refine ⟨⟨fun hf => ?_, fun he => ?_⟩, hmap⟩
  · by_contra hne
    have hlt : iterations < maxIterations := lt_of_le_of_ne h hne
    rw [hmap hlt] at hf
    have hq0 : (0 : ℝ) ≤ (iterations : ℝ) / (maxIterations : ℝ) := by positivity
    nlinarith
  · rw [primaryFreq, if_pos (le_of_eq he.symm)]

theorem primary_frequency_map_witness :
    5 ≤ 10 ∧ ((primaryFreq 5 10 = 110 ↔ 5 = 10) ∧
      (5 < 10 → primaryFreq 5 10
        = 220 + (880 - 220) * (((5 : ℕ) : ℝ) / ((10 : ℕ) : ℝ)))) :=
  ⟨by decide, primary_frequency_map 5 10 (by decide)⟩

/-- Rendering two adjacent row ranges in sequence renders their union. -/
theorem section_glue (pixels : ℕ → ℕ) (a m n width height : ℕ)
    (xMin xMax yMin yMax : ℝ) (it : ℕ) :
    renderMandelbrotSection
        (renderMandelbrotSection pixels a (a + m) width height
          xMin xMax yMin yMax it)
        (a + m) (a + m + n) width height xMin xMax yMin yMax it
      = renderMandelbrotSection pixels a (a + m + n) width height
          xMin xMax yMin yMax it := by
  simp only [renderMandelbrotSection]
  rw [← List.foldl_append]
  congr 1
  have h1 : a + m - a = m := by omega
  have h2 : a + m + n - (a + m) = n := by omega
  have h3 : a + m + n - a = n + m := by omega
  rw [h1, h2, h3]
  exact List.range'_append_1 a m n

/-- The first `k` strips (all of them non-final) together render exactly the
rows `[0, k * sectionHeight)`. -/
theorem strips_prefix (width height : ℕ) (xMin xMax yMin yMax : ℝ)
    (it n s : ℕ) (pixels : ℕ → ℕ) :
    ∀ k, k ≤ n - 1 →
      (List.range k).foldl
          (fun buf i =>
            renderMandelbrotSection buf (i * s)
              (if i = n - 1 then height else i * s + s)
              width height xMin xMax yMin yMax it)
          pixels
        = renderMandelbrotSection pixels 0 (k * s) width height
            xMin xMax yMin yMax it := by
  intro k
  induction k with
  | zero =>
    intro _
    simp [renderMandelbrotSection]
  | succ k ih =>
    intro hk
    rw [List.range_succ, List.foldl_append, ih (by omega),
      List.foldl_cons, List.foldl_nil]
    rw [if_neg (show ¬k = n - 1 by omega)]
    have hglue := section_glue pixels 0 (k * s) s width height
      xMin xMax yMin yMax it
    simp only [zero_add] at hglue
    rw [hglue]
    ring_nf

/-- Rendering all `n ≥ 1` strips of `renderMandelbrot`'s partition equals
rendering the single strip `[0, height)`. -/
theorem strips_eq_single (n : ℕ) (hn : 1 ≤ n) (pixels : ℕ → ℕ)
    (width height : ℕ) (xMin xMax yMin yMax : ℝ) (it : ℕ) :
    renderStrips n pixels width height xMin xMax yMin yMax it
      = renderMandelbrotSection pixels 0 height width height
          xMin xMax yMin yMax it := by
  simp only [renderStrips]
  obtain ⟨m, rfl⟩ : ∃ m, n = m + 1 := ⟨n - 1, by omega⟩
  rw [List.range_succ, List.foldl_append,
    strips_prefix width height xMin xMax yMin yMax it (m + 1) (height / (m + 1))
      pixels m (by omega),
    List.foldl_cons, List.foldl_nil]
  rw [if_pos (show m = m + 1 - 1 by omega)]
  have hms : m * (height / (m + 1)) ≤ height := by
    calc m * (height / (m + 1)) ≤ (m + 1) * (height / (m + 1)) :=
          Nat.mul_le_mul_right _ (by omega)
      _ = height / (m + 1) * (m + 1) := Nat.mul_comm _ _
      _ ≤ height := Nat.div_mul_le_self height (m + 1)
  have hglue := section_glue pixels 0 (m * (height / (m + 1)))
    (height - m * (height / (m + 1))) width height xMin xMax yMin yMax it
  simp only [zero_add] at hglue
  rw [show m * (height / (m + 1)) + (height - m * (height / (m + 1))) = height
    from by omega] at hglue
  exact hglue

/-- C1: for every viewport bounds and iteration budget, rendering the
800×600 raster via the `n ≥ 1` row-strip partition of `renderMandelbrot`
(final strip absorbing remainder rows) produces a raster pixel-for-pixel
identical to filling it as a single strip `[0, 600)`. -/
theorem strip_partition_renders_identically (n : ℕ) (hn : 1 ≤ n)
    (xMin xMax yMin yMax : ℝ) (hx : xMin < xMax) (hy : yMin < yMax)
    (maxIterations : ℕ) (pixels : ℕ → ℕ) :
    renderStrips n pixels 800 600 xMin xMax yMin yMax maxIterations
      = renderMandelbrotSection pixels 0 600 800 600 xMin xMax yMin yMax
          maxIterations :=
  strips_eq_single n hn pixels 800 600 xMin xMax yMin yMax maxIterations

theorem strip_partition_renders_identically_witness :
    1 ≤ 4 ∧ (0 : ℝ) < 1 ∧ (0 : ℝ) < 1 ∧
      renderStrips 4 (fun _ => 0) 800 600 0 1 0 1 100
        = renderMandelbrotSection (fun _ => 0) 0 600 800 600 0 1 0 1 100 :=
  ⟨by decide, zero_lt_one, zero_lt_one,
    strip_partition_renders_identically 4 (by decide) 0 1 0 1 zero_lt_one
      zero_lt_one 100 (fun _ => 0)⟩

/-- Truncation toward zero is the identity on integers. -/
theorem truncInt_intCast (z : ℤ) : truncInt ((z : ℝ)) = z := by
  rw [truncInt]
  split_ifs
  · exact Int.floor_intCast z
  · exact Int.ceil_intCast z

/-- C4: the recomputed iteration budget equals
`clamp(trunc(100 * sqrt(3.5 / w)), 100, 2000)` for every width `w > 0`; in
particular it is 100 (lower clamp) at the reference width 3.5 and 2000
(upper clamp) at 100,000,000× zoom. -/
theorem iteration_budget_clamp :
    (∀ w : ℝ, 0 < w →
      updateIterations w
        = max 100 (min 2000 (truncInt (100 * Real.sqrt (3.5 / w))))) ∧
    updateIterations 3.5 = 100 ∧
    updateIterations (3.5 / 100000000) = 2000 := by
  refine ⟨?_, ?_, ?_⟩
  · intro w hw
    simp only [updateIterations]
    split_ifs <;> omega
  · have h1 : (3.5 : ℝ) / 3.5 = 1 := by norm_num
    have h2 : truncInt (100 * Real.sqrt ((3.5 : ℝ) / 3.5)) = 100 := by
      rw [h1, Real.sqrt_one, mul_one,
        show (100 : ℝ) = ((100 : ℤ) : ℝ) from by norm_num, truncInt_intCast]
    simp only [updateIterations, h2]
    norm_num
  · have h1 : (3.5 : ℝ) / (3.5 / 100000000) = 100000000 := by norm_num
    have h2 : truncInt (100 * Real.sqrt ((3.5 : ℝ) / (3.5 / 100000000)))
        = 1000000 := by
      rw [h1, show (100000000 : ℝ) = 10000 ^ 2 from by norm_num,
        Real.sqrt_sq (by norm_num : (0 : ℝ) ≤ 10000),
        show (100 : ℝ) * 10000 = ((1000000 : ℤ) : ℝ) from by norm_num,
        truncInt_intCast]
    simp only [updateIterations, h2]
    norm_num

theorem iteration_budget_clamp_witness :
    (0 : ℝ) < 1 ∧
      updateIterations 1
        = max 100 (min 2000 (truncInt (100 * Real.sqrt (3.5 / 1)))) :=
  ⟨zero_lt_one, iteration_budget_clamp.1 1 zero_lt_one⟩

/-- C5: a precise render while the current bounds equal the last-rendered
bounds and no redraw is pending is a no-op: raster, stored previous bounds
and all three quality flags are unchanged. -/
theorem precise_render_skip (numThreads : ℕ) (s : RenderState)
    (h1 : s.needsUpdate = false)
    (h2 : s.prev_xMin = s.xMin) (h3 : s.prev_xMax = s.xMax)
    (h4 : s.prev_yMin = s.yMin) (h5 : s.prev_yMax = s.yMax) :
    renderMandelbrot numThreads true s = s := by
  rw [renderMandelbrot, if_pos ⟨rfl, h1, h2, h3, h4, h5⟩]

theorem precise_render_skip_witness :
    (RenderState.mk (-2.5) 1 (-1.5) 1.5 (-2.5) 1 (-1.5) 1.5 false true false
        100 (fun _ => 0)).needsUpdate = false ∧
      renderMandelbrot 4 true
          (RenderState.mk (-2.5) 1 (-1.5) 1.5 (-2.5) 1 (-1.5) 1.5 false true
            false 100 (fun _ => 0))
        = RenderState.mk (-2.5) 1 (-1.5) 1.5 (-2.5) 1 (-1.5) 1.5 false true
            false 100 (fun _ => 0) :=
  ⟨rfl, precise_render_skip 4 _ rfl rfl rfl rfl rfl⟩

/-- C8: every wheel zoom (factor 0.8 or 1.25, recentered on the mapped
cursor coordinate) preserves the viewport invariant `xMin < xMax` and
`yMin < yMax`. -/
theorem zoom_preserves_viewport_invariant (mouseX mouseY : ℝ) (wheelY : ℤ)
    (v : Viewport) (hx : v.xMin < v.xMax) (hy : v.yMin < v.yMax) :
    (applyZoom mouseX mouseY wheelY v).xMin
        < (applyZoom mouseX mouseY wheelY v).xMax ∧
      (applyZoom mouseX mouseY wheelY v).yMin
        < (applyZoom mouseX mouseY wheelY v).yMax := by
  simp only [applyZoom]
  have hf : (0 : ℝ) < if 0 < wheelY then (0.8 : ℝ) else 1.25 := by
    split_ifs <;> norm_num
  constructor
  · nlinarith [mul_pos (sub_pos.mpr hx) hf]
  · nlinarith [mul_pos (sub_pos.mpr hy) hf]

theorem zoom_preserves_viewport_invariant_witness :
    (Viewport.mk 0 1 0 1).xMin < (Viewport.mk 0 1 0 1).xMax ∧
      ((applyZoom 400 300 1 (Viewport.mk 0 1 0 1)).xMin
          < (applyZoom 400 300 1 (Viewport.mk 0 1 0 1)).xMax ∧
        (applyZoom 400 300 1 (Viewport.mk 0 1 0 1)).yMin
          < (applyZoom 400 300 1 (Viewport.mk 0 1 0 1)).yMax) :=
  ⟨zero_lt_one,
    zoom_preserves_viewport_invariant 400 300 1 (Viewport.mk 0 1 0 1)
      zero_lt_one zero_lt_one⟩
